import Mathlib

/-!
Verification of the undo/redo command stack of `rigcontrols/undo.py`.

The Python module is shallowly embedded as follows.

* Python runtime values that appear as attribute values or container items
  are modelled by `Val` (including Python's `None`, since `SetAttrCommand`
  initialises `originalItem` to `None`).
* The mutable external state that commands act on is a `World`: a map from
  object id and attribute name to an optional value (absent = the object
  has no such attribute, so `getattr` raises `AttributeError`), and a map
  from object id to a list-like container.  Containers serve both the
  `append`/`pop` interface assumed by `AppendCommand` and the
  `addItem`/`removeItem` interface assumed by `AddItemCommand`;
  `removeItem item` is modelled as removing the first occurrence of the
  item (`List.erase`), matching "remove this specific item".
* A command object is a `Cmd` value; `SetAttrCommand`'s mutable
  `originalItem` field is a field of the `setAttr` constructor.
* Methods that mutate `self` or the world are state-passing functions
  returning the new command state, the new world, and an optional error
  (`none` = returned normally, `some e` = raised).  Mutations performed
  before an exception is raised persist, as in Python.
-/

set_option maxHeartbeats 1000000

namespace RigControls

/-- A Python runtime value: `None`, a string, or an integer. -/
inductive Val where
  | vNone : Val
  | s : String → Val
  | i : Int → Val
deriving DecidableEq, Repr

/-- Error conditions raised by the embedded code.  `emptyHistory` and
`emptyFuture` are the spec's names for the `IndexError` raised by
`self.history.pop()` / `self.future.pop()` on an empty list;
`indexError` is the `IndexError` raised by popping an empty target
container; `attributeError` is raised by `getattr` on a missing
attribute. -/
inductive Err where
  | emptyHistory : Err
  | emptyFuture : Err
  | indexError : Err
  | attributeError : Err
deriving DecidableEq, Repr

/-- The external mutable state: per-object attribute dictionaries and
per-object list-like containers. -/
@[ext]
structure World where
  attrs : Nat → String → Option Val
  containers : Nat → List Val

/-- Python `getattr(object_, attrName)`, as a lookup (`none` = raises). -/
def World.getattr (w : World) (o : Nat) (n : String) : Option Val :=
  w.attrs o n

/-- Python `setattr(object_, attrName, v)`. -/
def World.setattr (w : World) (o : Nat) (n : String) (v : Val) : World :=
  { w with attrs := fun o' n' => if o' = o ∧ n' = n then some v else w.attrs o' n' }

/-- Replace object `o`'s container contents. -/
def World.setCont (w : World) (o : Nat) (l : List Val) : World :=
  { w with containers := fun o' => if o' = o then l else w.containers o' }

/-- Python `object_.append(item)`: append at the end of the container. -/
def World.appendItem (w : World) (o : Nat) (v : Val) : World :=
  w.setCont o (w.containers o ++ [v])

/-- Python `object_.pop()`: remove the last element, `IndexError` when empty. -/
def World.popItem (w : World) (o : Nat) : World × Option Err :=
  if w.containers o = [] then (w, some .indexError)
  else (w.setCont o (w.containers o).dropLast, none)

/-- Qt-style `object_.addItem(item)`, modelled as appending the item. -/
def World.addItemW (w : World) (o : Nat) (v : Val) : World :=
  w.setCont o (w.containers o ++ [v])

/-- Qt-style `object_.removeItem(item)`: remove this specific item
(first occurrence), independent of position. -/
def World.removeItemW (w : World) (o : Nat) (v : Val) : World :=
  w.setCont o ((w.containers o).erase v)

/-- A command object of `rigcontrols/undo.py`.  Fields mirror the Python
`__init__` attributes; `originalItem` is the mutable snapshot field of
`SetAttrCommand`, initialised to `None` (`Val.vNone`) at construction. -/
inductive Cmd where
  | setAttr (object_ : Nat) (attrName : String) (item : Val) (originalItem : Val) : Cmd
  | append (object_ : Nat) (item : Val) : Cmd
  | addItem (object_ : Nat) (item : Val) : Cmd
  | group (commands : List Cmd) : Cmd

/-- The `SetAttrCommand(object_, attrName, item)`: `originalItem` starts as `None`. -/
def mkSetAttrCommand (o : Nat) (n : String) (item : Val) : Cmd :=
  .setAttr o n item .vNone

mutual

/-- The `Command.do` for each variant.
`SetAttrCommand.do` stores the original value (`self.originalItem =
getattr(self.object_, self.attrName)`) and then performs `self.redo()`,
whose body `setattr(self.object_, self.attrName, self.item)` is inlined
here; `AppendCommand.do`/`AddItemCommand.do` call `self.redo()`, inlined
likewise; `CommandGroup.do` iterates over the command list calling
`do` on each one. -/
def cmdDo : Cmd → World → Cmd × World × Option Err
  | .setAttr o n item orig, w =>
    match w.getattr o n with
    | none => (.setAttr o n item orig, w, some .attributeError)
    | some a => (.setAttr o n item a, w.setattr o n item, none)
  | .append o item, w => (.append o item, w.appendItem o item, none)
  | .addItem o item, w => (.addItem o item, w.addItemW o item, none)
  | .group cs, w =>
    let r := cmdDoList cs w
    (.group r.1, r.2.1, r.2.2)

/-- The `for command in self.commands: command.do()`, stopping at the first
raised error (later commands are not executed). -/
def cmdDoList : List Cmd → World → List Cmd × World × Option Err
  | [], w => ([], w, none)
  | c :: cs, w =>
    let r := cmdDo c w
    match r.2.2 with
    | some e => (r.1 :: cs, r.2.1, some e)
    | none =>
      let r2 := cmdDoList cs r.2.1
      (r.1 :: r2.1, r2.2.1, r2.2.2)

end

mutual

/-- The `Command.undo` for each variant; commands never mutate themselves on
undo.  `SetAttrCommand.undo` sets the original value back;
`AppendCommand.undo` pops the container; `AddItemCommand.undo` removes
the stored item; `CommandGroup.undo` iterates in reverse over the
command list. -/
def cmdUndo : Cmd → World → Cmd × World × Option Err
  | .setAttr o n item orig, w => (.setAttr o n item orig, w.setattr o n orig, none)
  | .append o item, w =>
    let r := w.popItem o
    (.append o item, r.1, r.2)
  | .addItem o item, w => (.addItem o item, w.removeItemW o item, none)
  | .group cs, w =>
    let r := cmdUndoList cs w
    (.group r.1, r.2.1, r.2.2)

/-- The `for command in reversed(self.commands): command.undo()`: the later
commands in the list are undone first; an error aborts the iteration so
earlier commands are not undone. -/
def cmdUndoList : List Cmd → World → List Cmd × World × Option Err
  | [], w => ([], w, none)
  | c :: cs, w =>
    let r := cmdUndoList cs w
    match r.2.2 with
    | some e => (c :: r.1, r.2.1, some e)
    | none =>
      let rc := cmdUndo c r.2.1
      (rc.1 :: r.1, rc.2.1, rc.2.2)

end

mutual

/-- The `Command.redo` for each variant; commands never mutate themselves on
redo.  `CommandGroup.redo` iterates forward over the command list. -/
def cmdRedo : Cmd → World → Cmd × World × Option Err
  | .setAttr o n item orig, w => (.setAttr o n item orig, w.setattr o n item, none)
  | .append o item, w => (.append o item, w.appendItem o item, none)
  | .addItem o item, w => (.addItem o item, w.addItemW o item, none)
  | .group cs, w =>
    let r := cmdRedoList cs w
    (.group r.1, r.2.1, r.2.2)

/-- The `for command in self.commands: command.redo()`, stopping at the
first raised error. -/
def cmdRedoList : List Cmd → World → List Cmd × World × Option Err
  | [], w => ([], w, none)
  | c :: cs, w =>
    let r := cmdRedo c w
    match r.2.2 with
    | some e => (r.1 :: cs, r.2.1, some e)
    | none =>
      let r2 := cmdRedoList cs r.2.1
      (r.1 :: r2.1, r2.2.1, r2.2.2)

end

/-- Pop the last element of a Python list: `l.pop()` returns the
remaining list together with the removed element, or `none` when the
list is empty (Python raises `IndexError`). -/
def popLast {α : Type} (l : List α) : Option (List α × α) :=
  match l.reverse with
  | [] => none
  | x :: rest => some (rest.reverse, x)

/-- The `UndoStack`: `history` holds commands that have been executed
and could be undone (most recent last), `future` holds commands that
have been undone and could be redone (most recently undone last). -/
structure UndoStack where
  history : List Cmd
  future : List Cmd

/-- The `UndoStack.push`: clear out the current future stack, then push the
command onto the history stack. -/
def UndoStack.push (st : UndoStack) (command : Cmd) : UndoStack :=
  { history := st.history ++ [command], future := [] }

/-- The `UndoStack.dispatch`: `command.do()` then `self.push(command)`.  If
`do` raises, `push` is never reached, so the stack is returned
unchanged while the world keeps whatever partial mutations `do` made. -/
def UndoStack.dispatch (st : UndoStack) (command : Cmd) (w : World) :
    UndoStack × World × Option Err :=
  let r := cmdDo command w
  match r.2.2 with
  | some e => (st, r.2.1, some e)
  | none => (st.push r.1, r.2.1, none)

/-- The `UndoStack.undo`: `command = self.history.pop()` (raises on an empty
history, leaving everything unchanged), `command.undo()` (if it raises,
the command has already been popped and is not appended to the future),
then `self.future.append(command)`. -/
def UndoStack.undo (st : UndoStack) (w : World) : UndoStack × World × Option Err :=
  match popLast st.history with
  | none => (st, w, some .emptyHistory)
  | some (rest, command) =>
    let r := cmdUndo command w
    match r.2.2 with
    | some e => ({ history := rest, future := st.future }, r.2.1, some e)
    | none => ({ history := rest, future := st.future ++ [r.1] }, r.2.1, none)

/-- The `UndoStack.redo`: `command = self.future.pop()` (raises on an empty
future), `command.redo()`, then `self.history.append(command)`. -/
def UndoStack.redo (st : UndoStack) (w : World) : UndoStack × World × Option Err :=
  match popLast st.future with
  | none => (st, w, some .emptyFuture)
  | some (rest, command) =>
    let r := cmdRedo command w
    match r.2.2 with
    | some e => ({ history := st.history, future := rest }, r.2.1, some e)
    | none => ({ history := st.history ++ [r.1], future := rest }, r.2.1, none)

/-- A fresh `UndoStack()`. -/
def UndoStack.fresh : UndoStack := ⟨[], []⟩

/-- Dispatch a list of commands in order, stopping at the first error. -/
def dispatchList : UndoStack → List Cmd → World → UndoStack × World × Option Err
  | st, [], w => (st, w, none)
  | st, c :: cs, w =>
    let r := st.dispatch c w
    match r.2.2 with
    | some e => (r.1, r.2.1, some e)
    | none => dispatchList r.1 cs r.2.1

/-- Call `undo()` `n` times, stopping at the first error. -/
def undoN : UndoStack → Nat → World → UndoStack × World × Option Err
  | st, 0, w => (st, w, none)
  | st, n + 1, w =>
    let r := st.undo w
    match r.2.2 with
    | some e => (r.1, r.2.1, some e)
    | none => undoN r.1 n r.2.1

/-- Call `redo()` `n` times, stopping at the first error. -/
def redoN : UndoStack → Nat → World → UndoStack × World × Option Err
  | st, 0, w => (st, w, none)
  | st, n + 1, w =>
    let r := st.redo w
    match r.2.2 with
    | some e => (r.1, r.2.1, some e)
    | none => redoN r.1 n r.2.1

mutual

/-- Side condition under which a command's mutations are exactly
invertible: every `AddItemCommand` (also inside groups) must add an
item that is not already present in its target container at the moment
it executes.  Without it, `removeItem` can remove a pre-existing equal
item instead of the one that was added.  The other variants need no
condition. -/
def addOk : Cmd → World → Bool
  | .setAttr _ _ _ _, _ => true
  | .append _ _, _ => true
  | .addItem o item, w => !(decide (item ∈ w.containers o))
  | .group cs, w => addOkList cs w

/-- The `addOk` for each command of a list, threaded through the worlds the
commands actually execute in. -/
def addOkList : List Cmd → World → Bool
  | [], _ => true
  | c :: cs, w =>
    addOk c w &&
      (let r := cmdDo c w
       match r.2.2 with
       | some _ => true
       | none => addOkList cs r.2.1)

end

mutual

/-- The construction-time fields of a command: everything except
`SetAttrCommand`'s mutable `originalItem` snapshot, which is reset to
its initial `None`. -/
def eraseOriginal : Cmd → Cmd
  | .setAttr o n item _ => .setAttr o n item .vNone
  | .append o item => .append o item
  | .addItem o item => .addItem o item
  | .group cs => .group (eraseOriginalList cs)

/-- The `eraseOriginal` applied to each command of a list. -/
def eraseOriginalList : List Cmd → List Cmd
  | [] => []
  | c :: cs => eraseOriginal c :: eraseOriginalList cs

end

mutual

/-- Structural induction over `Cmd` jointly with its nested `List Cmd`. -/
def cmdInd {P : Cmd → Prop} {Q : List Cmd → Prop}
    (hset : ∀ o n item orig, P (Cmd.setAttr o n item orig))
    (happ : ∀ o item, P (Cmd.append o item))
    (hadd : ∀ o item, P (Cmd.addItem o item))
    (hgrp : ∀ cs, Q cs → P (Cmd.group cs))
    (hnil : Q [])
    (hcons : ∀ c cs, P c → Q cs → Q (c :: cs)) :
    ∀ c, P c
  | .setAttr o n item orig => hset o n item orig
  | .append o item => happ o item
  | .addItem o item => hadd o item
  | .group cs => hgrp cs (cmdIndList hset happ hadd hgrp hnil hcons cs)

/-- List part of the joint structural induction over `Cmd`. -/
def cmdIndList {P : Cmd → Prop} {Q : List Cmd → Prop}
    (hset : ∀ o n item orig, P (Cmd.setAttr o n item orig))
    (happ : ∀ o item, P (Cmd.append o item))
    (hadd : ∀ o item, P (Cmd.addItem o item))
    (hgrp : ∀ cs, Q cs → P (Cmd.group cs))
    (hnil : Q [])
    (hcons : ∀ c cs, P c → Q cs → Q (c :: cs)) :
    ∀ cs, Q cs
  | [] => hnil
  | c :: cs =>
    hcons c cs (cmdInd hset happ hadd hgrp hnil hcons c)
      (cmdIndList hset happ hadd hgrp hnil hcons cs)

end

/-- Command `c` reversibly links world `w0` to world `w1`: undoing `c`
at `w1` returns normally to `w0` without mutating `c`, and redoing `c`
at `w0` returns normally to `w1` without mutating `c`. -/
def Link (c : Cmd) (w0 w1 : World) : Prop :=
  cmdUndo c w1 = (c, w0, none) ∧ cmdRedo c w0 = (c, w1, none)

/-- The history sequence `cs` links `w0` step by step up to `w`. -/
inductive Chain : World → List Cmd → World → Prop where
  | nil : ∀ w, Chain w [] w
  | snoc : ∀ w0 cs w1 c w2, Chain w0 cs w1 → Link c w1 w2 → Chain w0 (cs ++ [c]) w2

/-- The future sequence `fs` can be redone starting from the current
world `w`: its most recently undone command (last) links `w` forward,
and so on. -/
inductive FChain : World → List Cmd → Prop where
  | nil : ∀ w, FChain w []
  | snoc : ∀ w c w' fs, Link c w w' → FChain w' fs → FChain w (fs ++ [c])

/-- Stack/world consistency invariant: the history is a link chain from
some base world up to the current world, and the future is redoable
from the current world. -/
def Inv (st : UndoStack) (w : World) : Prop :=
  (∃ w0, Chain w0 st.history w) ∧ FChain w st.future

/-- States reachable from a fresh `UndoStack` by successful `dispatch`,
`undo` and `redo` calls. -/
inductive Reach : UndoStack → World → Prop where
  | init : ∀ w, Reach UndoStack.fresh w
  | disp : ∀ st w c st' w', Reach st w →
      st.dispatch c w = (st', w', none) → Reach st' w'
  | undoS : ∀ st w st' w', Reach st w →
      st.undo w = (st', w', none) → Reach st' w'
  | redoS : ∀ st w st' w', Reach st w →
      st.redo w = (st', w', none) → Reach st' w'

/-- Reachability as in `Reach`, but every dispatched command must also
satisfy the `addOk` side condition (no `AddItemCommand` adds an item
already present in its target container). -/
inductive ReachA : UndoStack → World → Prop where
  | init : ∀ w, ReachA UndoStack.fresh w
  | disp : ∀ st w c st' w', ReachA st w → addOk c w = true →
      st.dispatch c w = (st', w', none) → ReachA st' w'
  | undoS : ∀ st w st' w', ReachA st w →
      st.undo w = (st', w', none) → ReachA st' w'
  | redoS : ∀ st w st' w', ReachA st w →
      st.redo w = (st', w', none) → ReachA st' w'

/-!
Python commands are heap objects compared by identity: "the same command
in both sequences" means the same object, not structurally equal
commands.  To state the history/future disjointness invariant we run
the same stack code over commands tagged with a ghost identity: each
`dispatch` allocates a fresh id for the command object it pushes.  The
tags change no behaviour; they only record object identity.
-/

/-- The `UndoStack` whose entries carry a ghost object identity. -/
structure TStack where
  history : List (Nat × Cmd)
  future : List (Nat × Cmd)
  nextId : Nat

/-- A fresh tagged stack. -/
def TStack.fresh : TStack := ⟨[], [], 0⟩

/-- The `push` on the tagged stack: clear the future, append the command
under a fresh identity. -/
def TStack.push (st : TStack) (command : Cmd) : TStack :=
  ⟨st.history ++ [(st.nextId, command)], [], st.nextId + 1⟩

/-- The `dispatch` on the tagged stack. -/
def TStack.dispatch (st : TStack) (command : Cmd) (w : World) :
    TStack × World × Option Err :=
  let r := cmdDo command w
  match r.2.2 with
  | some e => (st, r.2.1, some e)
  | none => (st.push r.1, r.2.1, none)

/-- The `undo` on the tagged stack: the moved entry keeps its identity. -/
def TStack.undo (st : TStack) (w : World) : TStack × World × Option Err :=
  match popLast st.history with
  | none => (st, w, some .emptyHistory)
  | some (rest, command) =>
    let r := cmdUndo command.2 w
    match r.2.2 with
    | some e => (⟨rest, st.future, st.nextId⟩, r.2.1, some e)
    | none => (⟨rest, st.future ++ [(command.1, r.1)], st.nextId⟩, r.2.1, none)

/-- The `redo` on the tagged stack: the moved entry keeps its identity. -/
def TStack.redo (st : TStack) (w : World) : TStack × World × Option Err :=
  match popLast st.future with
  | none => (st, w, some .emptyFuture)
  | some (rest, command) =>
    let r := cmdRedo command.2 w
    match r.2.2 with
    | some e => (⟨st.history, rest, st.nextId⟩, r.2.1, some e)
    | none => (⟨st.history ++ [(command.1, r.1)], rest, st.nextId⟩, r.2.1, none)

/-- States reachable from a fresh tagged stack by successful
`dispatch`, `undo` and `redo` calls. -/
inductive TReach : TStack → World → Prop where
  | init : ∀ w, TReach TStack.fresh w
  | disp : ∀ st w c st' w', TReach st w →
      st.dispatch c w = (st', w', none) → TReach st' w'
  | undoS : ∀ st w st' w', TReach st w →
      st.undo w = (st', w', none) → TReach st' w'
  | redoS : ∀ st w st' w', TReach st w →
      st.redo w = (st', w', none) → TReach st' w'

/-- Run `f` over the commands of a list in order, front to back,
threading the world and stopping at the first error: the reference
"forward iteration" that `CommandGroup.do`/`redo` are compared against,
and (applied to the reversed list) the "strict reverse order" iteration
that `CommandGroup.undo` is compared against. -/
def runSeq (f : Cmd → World → Cmd × World × Option Err) :
    List Cmd → World → List Cmd × World × Option Err
  | [], w => ([], w, none)
  | c :: cs, w =>
    let r := f c w
    match r.2.2 with
    | some e => (r.1 :: cs, r.2.1, some e)
    | none =>
      let r2 := runSeq f cs r.2.1
      (r.1 :: r2.1, r2.2.1, r2.2.2)

/-- Identity invariant of the tagged stack: the ghost ids in history
and future are pairwise distinct, and all are below the allocation
counter. -/
def TInv (st : TStack) : Prop :=
  ((st.history ++ st.future).map Prod.fst).Nodup ∧
    ∀ p ∈ st.history ++ st.future, p.1 < st.nextId

/-- A world with no attributes and all containers empty. -/
def emptyWorld : World := ⟨fun _ _ => none, fun _ => []⟩

/-- A target object `t` (id 0) with field `x = 1`. -/
def exWorldX : World :=
  ⟨fun o n => if o = 0 ∧ n = "x" then some (Val.i 1) else none, fun _ => []⟩

/-- A world whose container 0 already holds `["a", "b"]`: the
counterexample world for `AddItemCommand` round trips. -/
def dupWorld : World :=
  ⟨fun _ _ => none, fun o => if o = 0 then [Val.s ("a"), Val.s ("b")] else []⟩

/-- C1 concrete scenario, step 1: dispatch `AppendItem(c, "a")`. -/
def c1s1 : UndoStack × World × Option Err :=
  UndoStack.dispatch UndoStack.fresh (Cmd.append 0 (Val.s ("a"))) emptyWorld

/-- C1 concrete scenario, step 2: dispatch `AppendItem(c, "b")`. -/
def c1s2 : UndoStack × World × Option Err :=
  UndoStack.dispatch c1s1.1 (Cmd.append 0 (Val.s ("b"))) c1s1.2.1

/-- C1 concrete scenario, step 3: first `undo()`. -/
def c1s3 : UndoStack × World × Option Err := UndoStack.undo c1s2.1 c1s2.2.1

/-- C1 concrete scenario, step 4: second `undo()`. -/
def c1s4 : UndoStack × World × Option Err := UndoStack.undo c1s3.1 c1s3.2.1

/-- C1 concrete scenario, step 5: first `redo()`. -/
def c1s5 : UndoStack × World × Option Err := UndoStack.redo c1s4.1 c1s4.2.1

/-- C1 concrete scenario, step 6: second `redo()`. -/
def c1s6 : UndoStack × World × Option Err := UndoStack.redo c1s5.1 c1s5.2.1

/-- C1 counterexample: dispatch a single `AddItem(c, "a")` on a fresh
stack over a container that already holds an equal item. -/
def c1cexDispatch : UndoStack × World × Option Err :=
  dispatchList UndoStack.fresh [Cmd.addItem 0 (Val.s ("a"))] dupWorld

/-- C1 counterexample: the single `undo()` afterwards. -/
def c1cexUndo : UndoStack × World × Option Err :=
  undoN c1cexDispatch.1 1 c1cexDispatch.2.1

/-- C2 concrete scenario, step 1: dispatch `SetAttribute(t, "x", 5)`. -/
def c2s1 : UndoStack × World × Option Err :=
  UndoStack.dispatch UndoStack.fresh (mkSetAttrCommand 0 "x" (Val.i 5)) exWorldX

/-- C2 concrete scenario, step 2: `undo()`. -/
def c2s2 : UndoStack × World × Option Err := UndoStack.undo c2s1.1 c2s1.2.1

/-- C2 concrete scenario, step 3: `redo()`. -/
def c2s3 : UndoStack × World × Option Err := UndoStack.redo c2s2.1 c2s2.2.1

/-- C3 order-discriminating group: two `SetAttribute` commands on the
same field, so forward and reverse execution orders are observably
different. -/
def c3group : Cmd :=
  Cmd.group [mkSetAttrCommand 0 "x" (Val.i 2), mkSetAttrCommand 0 "x" (Val.i 3)]

/-- C3: the group executed by `do` on `x = 1`. -/
def c3do : Cmd × World × Option Err := cmdDo c3group exWorldX

/-- C7 witness state: one successful dispatch on a fresh stack. -/
def c7wDispatch : UndoStack × World × Option Err :=
  UndoStack.dispatch UndoStack.fresh (Cmd.append 0 (Val.s ("a"))) emptyWorld

/-- C7 counterexample: dispatch `AddItem(c, "a")` over a container that
already holds an equal item. -/
def c7cexDispatch : UndoStack × World × Option Err :=
  UndoStack.dispatch UndoStack.fresh (Cmd.addItem 0 (Val.s ("a"))) dupWorld

/-- C7 counterexample: the `undo()` of that dispatch. -/
def c7cexUndo : UndoStack × World × Option Err :=
  UndoStack.undo c7cexDispatch.1 c7cexDispatch.2.1

/-- C7 counterexample: the `redo()` after the `undo()`. -/
def c7cexRedo : UndoStack × World × Option Err :=
  UndoStack.redo c7cexUndo.1 c7cexUndo.2.1

/-- C8 witness, step 1: dispatch on a fresh tagged stack. -/
def c8s1 : TStack × World × Option Err :=
  TStack.dispatch TStack.fresh (Cmd.append 0 (Val.s ("a"))) emptyWorld

/-- C8 witness, step 2: a second dispatch. -/
def c8s2 : TStack × World × Option Err :=
  TStack.dispatch c8s1.1 (Cmd.append 0 (Val.s ("b"))) c8s1.2.1

/-- C8 witness, step 3: one `undo()`, so history and future are both
non-empty. -/
def c8s3 : TStack × World × Option Err := TStack.undo c8s2.1 c8s2.2.1

theorem World.containers_setattr (w : World) (o : Nat) (n : String) (v : Val) :
    (w.setattr o n v).containers = w.containers := rfl

theorem World.attrs_setCont (w : World) (o : Nat) (l : List Val) :
    (w.setCont o l).attrs = w.attrs := rfl

theorem World.attrs_setattr (w : World) (o : Nat) (n : String) (v : Val) :
    (w.setattr o n v).attrs o n = some v := by
  simp [World.setattr]

theorem World.containers_setCont (w : World) (o : Nat) (l : List Val) :
    (w.setCont o l).containers o = l := by
  simp [World.setCont]

theorem World.setattr_setattr (w : World) (o : Nat) (n : String) (v v' : Val) :
    (w.setattr o n v).setattr o n v' = w.setattr o n v' := by
  unfold World.setattr
  congr 1
  funext o' n'
  by_cases h : o' = o ∧ n' = n <;> simp [h]

theorem World.setattr_self (w : World) (o : Nat) (n : String) (v : Val)
    (h : w.attrs o n = some v) : w.setattr o n v = w := by
  refine World.ext ?_ rfl
  funext o' n'
  show (if o' = o ∧ n' = n then some v else w.attrs o' n') = w.attrs o' n'
  by_cases h' : o' = o ∧ n' = n
  · obtain ⟨rfl, rfl⟩ := h'
    simp [h]
  · simp [h']

theorem World.setCont_setCont (w : World) (o : Nat) (l l' : List Val) :
    (w.setCont o l).setCont o l' = w.setCont o l' := by
  unfold World.setCont
  congr 1
  funext o'
  by_cases h : o' = o <;> simp [h]

theorem World.setCont_self (w : World) (o : Nat) :
    w.setCont o (w.containers o) = w := by
  refine World.ext rfl ?_
  funext o'
  show (if o' = o then w.containers o else w.containers o') = w.containers o'
  by_cases h : o' = o
  · subst h; simp
  · simp [h]



/-- The `undo` never mutates the command object. -/
theorem cmdUndo_fst : ∀ c, ∀ w : World, (cmdUndo c w).1 = c := by
  refine cmdInd (Q := fun cs => ∀ w : World, (cmdUndoList cs w).1 = cs) ?_ ?_ ?_ ?_ ?_ ?_
  · intro o n item orig w; rfl
  · intro o item w; rfl
  · intro o item w; rfl
  · intro cs ih w
    simp [cmdUndo, ih w]
  · intro w; rfl
  · intro c cs ihc ihcs w
    simp only [cmdUndoList]
    cases h : (cmdUndoList cs w).2.2 <;> simp [h, ihc, ihcs]

/-- The `redo` never mutates the command object. -/
theorem cmdRedo_fst : ∀ c, ∀ w : World, (cmdRedo c w).1 = c := by
  refine cmdInd (Q := fun cs => ∀ w : World, (cmdRedoList cs w).1 = cs) ?_ ?_ ?_ ?_ ?_ ?_
  · intro o n item orig w; rfl
  · intro o item w; rfl
  · intro o item w; rfl
  · intro cs ih w
    simp [cmdRedo, ih w]
  · intro w; rfl
  · intro c cs ihc ihcs w
    simp only [cmdRedoList]
    cases h : (cmdRedo c w).2.2 <;> simp [h, ihc, ihcs]

/-- The `do` changes no construction-time field of a command. -/
theorem cmdDo_eraseOriginal : ∀ c, ∀ w : World,
    eraseOriginal (cmdDo c w).1 = eraseOriginal c := by
  refine cmdInd (Q := fun cs => ∀ w : World,
    eraseOriginalList (cmdDoList cs w).1 = eraseOriginalList cs) ?_ ?_ ?_ ?_ ?_ ?_
  · intro o n item orig w
    simp only [cmdDo]
    cases h : w.getattr o n <;> simp [h, eraseOriginal]
  · intro o item w; rfl
  · intro o item w; rfl
  · intro cs ih w
    simp [cmdDo, eraseOriginal, ih w]
  · intro w; rfl
  · intro c cs ihc ihcs w
    simp only [cmdDoList]
    cases h : (cmdDo c w).2.2 <;> simp [h, eraseOriginalList, ihc, ihcs]



/-- A command that just executed `do` successfully behaves identically
under `redo` from the same starting world. -/
theorem cmdDo_redo : ∀ c, ∀ (w : World) (c' : Cmd) (w' : World),
    cmdDo c w = (c', w', none) → cmdRedo c' w = (c', w', none) := by
  refine cmdInd (Q := fun cs => ∀ (w : World) (cs' : List Cmd) (w' : World),
    cmdDoList cs w = (cs', w', none) → cmdRedoList cs' w = (cs', w', none)) ?_ ?_ ?_ ?_ ?_ ?_
  · intro o n item orig w c' w' h
    simp only [cmdDo] at h
    cases hg : w.getattr o n with
    | none => rw [hg] at h; simp at h
    | some a =>
      rw [hg] at h
      simp only [Prod.mk.injEq] at h
      obtain ⟨rfl, rfl, -⟩ := h
      rfl
  · intro o item w c' w' h
    simp only [cmdDo, Prod.mk.injEq] at h
    obtain ⟨rfl, rfl, -⟩ := h
    rfl
  · intro o item w c' w' h
    simp only [cmdDo, Prod.mk.injEq] at h
    obtain ⟨rfl, rfl, -⟩ := h
    rfl
  · intro cs ih w c' w' h
    simp only [cmdDo, Prod.mk.injEq] at h
    obtain ⟨h1, h2, h3⟩ := h
    have hd : cmdDoList cs w = ((cmdDoList cs w).1, (cmdDoList cs w).2.1, none) := by
      rw [← h3]
    have hr := ih w _ _ hd
    subst h1 h2
    simp [cmdRedo, hr]
  · intro w cs' w' h
    simp only [cmdDoList, Prod.mk.injEq] at h
    obtain ⟨rfl, rfl, -⟩ := h
    rfl
  · intro c cs ihc ihcs w cs' w' h
    simp only [cmdDoList] at h
    cases h1 : (cmdDo c w).2.2 with
    | some e => rw [h1] at h; simp at h
    | none =>
      rw [h1] at h
      simp only [Prod.mk.injEq] at h
      obtain ⟨h2, h3, h4⟩ := h
      have hc : cmdDo c w = ((cmdDo c w).1, (cmdDo c w).2.1, none) := by rw [← h1]
      have hr := ihc w _ _ hc
      have hd : cmdDoList cs (cmdDo c w).2.1 =
          ((cmdDoList cs (cmdDo c w).2.1).1, (cmdDoList cs (cmdDo c w).2.1).2.1, none) := by
        rw [← h4]
      have hrl := ihcs (cmdDo c w).2.1 _ _ hd
      subst h2 h3
      simp [cmdRedoList, hr, hrl]



/-- Round trip: a successful `do` satisfying the `addOk` side condition
is exactly cancelled by `undo`, restoring the starting world. -/
theorem cmdDo_undo_cancel : ∀ c, ∀ (w : World) (c' : Cmd) (w' : World),
    cmdDo c w = (c', w', none) → addOk c w = true → cmdUndo c' w' = (c', w, none) := by
  refine cmdInd (Q := fun cs => ∀ (w : World) (cs' : List Cmd) (w' : World),
    cmdDoList cs w = (cs', w', none) → addOkList cs w = true →
      cmdUndoList cs' w' = (cs', w, none)) ?_ ?_ ?_ ?_ ?_ ?_
  · intro o n item orig w c' w' h _
    simp only [cmdDo] at h
    cases hg : w.getattr o n with
    | none => rw [hg] at h; simp at h
    | some a =>
      rw [hg] at h
      simp only [Prod.mk.injEq] at h
      obtain ⟨rfl, rfl, -⟩ := h
      simp only [cmdUndo]
      rw [World.setattr_setattr, World.setattr_self w o n a hg]
  · intro o item w c' w' h _
    simp only [cmdDo, Prod.mk.injEq] at h
    obtain ⟨rfl, rfl, -⟩ := h
    simp only [cmdUndo, World.popItem, World.appendItem, World.containers_setCont]
    rw [if_neg (by simp)]
    rw [List.dropLast_concat, World.setCont_setCont, World.setCont_self]
  · intro o item w c' w' h ha
    simp only [cmdDo, Prod.mk.injEq] at h
    obtain ⟨rfl, rfl, -⟩ := h
    simp only [addOk, Bool.not_eq_eq_eq_not, Bool.not_true, decide_eq_false_iff_not] at ha
    simp only [cmdUndo, World.removeItemW, World.addItemW, World.containers_setCont]
    rw [List.erase_append_right _ ha]
    simp [World.setCont_setCont, World.setCont_self]
  · intro cs ih w c' w' h ha
    simp only [cmdDo, Prod.mk.injEq] at h
    obtain ⟨h1, h2, h3⟩ := h
    have hd : cmdDoList cs w = ((cmdDoList cs w).1, (cmdDoList cs w).2.1, none) := by
      rw [← h3]
    simp only [addOk] at ha
    have hu := ih w _ _ hd ha
    subst h1 h2
    simp [cmdUndo, hu]
  · intro w cs' w' h _
    simp only [cmdDoList, Prod.mk.injEq] at h
    obtain ⟨rfl, rfl, -⟩ := h
    rfl
  · intro c cs ihc ihcs w cs' w' h ha
    simp only [cmdDoList] at h
    cases h1 : (cmdDo c w).2.2 with
    | some e => rw [h1] at h; simp at h
    | none =>
      rw [h1] at h
      simp only [Prod.mk.injEq] at h
      obtain ⟨h2, h3, h4⟩ := h
      simp only [addOkList, h1, Bool.and_eq_true] at ha
      obtain ⟨hac, hacs⟩ := ha
      have hc : cmdDo c w = ((cmdDo c w).1, (cmdDo c w).2.1, none) := by rw [← h1]
      have hu := ihc w _ _ hc hac
      have hd : cmdDoList cs (cmdDo c w).2.1 =
          ((cmdDoList cs (cmdDo c w).2.1).1, (cmdDoList cs (cmdDo c w).2.1).2.1, none) := by
        rw [← h4]
      have hul := ihcs (cmdDo c w).2.1 _ _ hd hacs
      subst h2 h3
      simp [cmdUndoList, hul, hu]

theorem popLast_concat {α : Type} (l : List α) (a : α) :
    popLast (l ++ [a]) = some (l, a) := by
  simp [popLast]

theorem popLast_eq_some {α : Type} {l rest : List α} {x : α}
    (h : popLast l = some (rest, x)) : l = rest ++ [x] := by
  unfold popLast at h
  cases hr : l.reverse with
  | nil => rw [hr] at h; simp at h
  | cons y ys =>
    rw [hr] at h
    simp only [Option.some.injEq, Prod.mk.injEq] at h
    obtain ⟨h1, h2⟩ := h
    have hl : l.reverse.reverse = l := List.reverse_reverse l
    rw [hr] at hl
    subst h1 h2
    simp only [List.reverse_cons] at hl
    exact hl.symm

/-- A successful run of a command list splits at any append point. -/
theorem cmdDoList_append_ok : ∀ (l1 l2 : List Cmd) (w : World) (l12 : List Cmd) (w2 : World),
    cmdDoList (l1 ++ l2) w = (l12, w2, none) →
    ∃ l1' w1 l2', cmdDoList l1 w = (l1', w1, none) ∧ cmdDoList l2 w1 = (l2', w2, none) ∧
      l12 = l1' ++ l2' := by
  intro l1
  induction l1 with
  | nil =>
    intro l2 w l12 w2 h
    exact ⟨[], w, l12, rfl, h, rfl⟩
  | cons c cs ih =>
    intro l2 w l12 w2 h
    simp only [List.cons_append, cmdDoList] at h
    rcases h1 : cmdDo c w with ⟨c1, w1a, e1⟩
    rw [h1] at h
    cases e1 with
    | some e => simp at h
    | none =>
      simp only [List.append_eq] at h
      rcases h2 : cmdDoList (cs ++ l2) w1a with ⟨la, wa, ea⟩
      rw [h2] at h
      simp only [Prod.mk.injEq] at h
      obtain ⟨hl, hw, he⟩ := h
      subst he hw
      obtain ⟨l1', w1, l2', ha, hb, hc⟩ := ih l2 w1a la _ h2
      refine ⟨c1 :: l1', w1, l2', ?_, hb, ?_⟩
      · simp [cmdDoList, h1, ha]
      · rw [← hl, hc]
        simp

/-- The `addOk` condition on an appended run splits at the append point. -/
theorem addOkList_append_ok : ∀ (l1 l2 : List Cmd) (w : World) (l1' : List Cmd) (w1 : World),
    cmdDoList l1 w = (l1', w1, none) → addOkList (l1 ++ l2) w = true →
    addOkList l1 w = true ∧ addOkList l2 w1 = true := by
  intro l1
  induction l1 with
  | nil =>
    intro l2 w l1' w1 h ha
    simp only [cmdDoList, Prod.mk.injEq] at h
    obtain ⟨-, rfl, -⟩ := h
    exact ⟨rfl, ha⟩
  | cons c cs ih =>
    intro l2 w l1' w1 h ha
    simp only [List.cons_append, addOkList] at ha
    simp only [cmdDoList] at h
    rcases h1 : cmdDo c w with ⟨c1, w1a, e1⟩
    rw [h1] at h ha
    cases e1 with
    | some e => simp at h
    | none =>
      simp only [Bool.and_eq_true] at ha
      obtain ⟨hac, hal⟩ := ha
      simp only [List.append_eq] at h
      rcases h2 : cmdDoList cs w1a with ⟨la, wa, ea⟩
      rw [h2] at h
      simp only [Prod.mk.injEq] at h
      obtain ⟨hl, hw, he⟩ := h
      subst he hw
      obtain ⟨hx, hy⟩ := ih l2 w1a la _ h2 hal
      refine ⟨?_, hy⟩
      simp [addOkList, h1, hac, hx]



/-- After a successful run of `cs` (satisfying `addOk`) whose resulting
command states sit on top of the history, `cs.length` undos succeed,
restore the starting world exactly, and move the commands (reversed)
onto the future. -/
theorem undoN_restore : ∀ (cs : List Cmd) (w : World) (cs2 : List Cmd) (w2 : World)
    (h f : List Cmd),
    cmdDoList cs w = (cs2, w2, none) → addOkList cs w = true →
    undoN ⟨h ++ cs2, f⟩ cs.length w2 = (⟨h, f ++ cs2.reverse⟩, w, none) := by
  intro cs
  induction cs using List.reverseRecOn with
  | nil =>
    intro w cs2 w2 h f hdo ha
    simp only [cmdDoList, Prod.mk.injEq] at hdo
    obtain ⟨h1, h2, -⟩ := hdo
    subst h1 h2
    simp [undoN]
  | append_singleton l d ih =>
    intro w cs2 w2 h f hdo ha
    obtain ⟨l1', w1, l2', ha1, hb1, hc1⟩ := cmdDoList_append_ok l [d] w cs2 w2 hdo
    obtain ⟨hal, had⟩ := addOkList_append_ok l [d] w l1' w1 ha1 ha
    simp only [cmdDoList] at hb1
    rcases h1 : cmdDo d w1 with ⟨d1, wd, ed⟩
    rw [h1] at hb1
    cases ed with
    | some e => simp at hb1
    | none =>
      simp only [cmdDoList, Prod.mk.injEq] at hb1
      obtain ⟨h2, h3, -⟩ := hb1
      subst h2 h3
      simp only [addOkList, h1, Bool.and_eq_true] at had
      obtain ⟨had1, -⟩ := had
      have hcancel := cmdDo_undo_cancel d w1 d1 wd h1 had1
      subst hc1
      have hlen : (l ++ [d]).length = l.length + 1 := by simp
      rw [hlen]
      simp only [undoN, UndoStack.undo]
      rw [show h ++ (l1' ++ [d1]) = (h ++ l1') ++ [d1] by simp]
      rw [popLast_concat]
      simp only [hcancel]
      have := ih w l1' w1 h (f ++ [d1]) ha1 hal
      rw [this]
      simp
  


/-- Dispatching a list of commands that all succeed appends their
post-`do` states to the history; any dispatch clears the future. -/
theorem dispatchList_ok : ∀ (cs : List Cmd) (st : UndoStack) (w : World) (cs2 : List Cmd)
    (w2 : World),
    cmdDoList cs w = (cs2, w2, none) →
    dispatchList st cs w =
      (⟨st.history ++ cs2, if cs.isEmpty then st.future else []⟩, w2, none) := by
  intro cs
  induction cs with
  | nil =>
    intro st w cs2 w2 h
    simp only [cmdDoList, Prod.mk.injEq] at h
    obtain ⟨h1, h2, -⟩ := h
    subst h1 h2
    simp [dispatchList]
  | cons c cs ih =>
    intro st w cs2 w2 h
    simp only [cmdDoList] at h
    rcases h1 : cmdDo c w with ⟨c1, w1, e1⟩
    rw [h1] at h
    cases e1 with
    | some e => simp at h
    | none =>
      simp only at h
      rcases h2 : cmdDoList cs w1 with ⟨la, wa, ea⟩
      rw [h2] at h
      simp only [Prod.mk.injEq] at h
      obtain ⟨hl, hw, he⟩ := h
      subst he hw
      simp only [dispatchList, UndoStack.dispatch, h1]
      have hrec := ih (st.push c1) w1 la _ h2
      rw [hrec]
      simp only [UndoStack.push]
      rw [← hl]
      simp



/-- Inverting the last link of a history chain. -/
theorem chain_snoc_inv {w0 w : World} {hs : List Cmd} {c : Cmd}
    (hc : Chain w0 (hs ++ [c]) w) : ∃ w1, Chain w0 hs w1 ∧ Link c w1 w := by
  generalize hEq : hs ++ [c] = l at hc
  cases hc with
  | nil => exact absurd hEq (by simp)
  | snoc cs w1 c' w2 hch hl =>
    obtain ⟨h1, h2⟩ := List.append_inj' hEq (by simp)
    simp only [List.cons.injEq, and_true] at h2
    subst h1 h2
    exact ⟨w1, hch, hl⟩

/-- Inverting the last link of a future chain. -/
theorem fchain_snoc_inv {w : World} {fs : List Cmd} {c : Cmd}
    (hf : FChain w (fs ++ [c])) : ∃ w', Link c w w' ∧ FChain w' fs := by
  generalize hEq : fs ++ [c] = l at hf
  cases hf with
  | nil => exact absurd hEq (by simp)
  | snoc cc wmid ffs hl hrest =>
    obtain ⟨h1, h2⟩ := List.append_inj' hEq (by simp)
    simp only [List.cons.injEq, and_true] at h2
    subst h1 h2
    exact ⟨_, by assumption, by assumption⟩

/-- The `dispatch` preserves the consistency invariant when the dispatched
command satisfies `addOk`. -/
theorem inv_dispatch {st : UndoStack} {w : World} {c : Cmd} {st' : UndoStack} {w' : World}
    (hinv : Inv st w) (ha : addOk c w = true)
    (hd : st.dispatch c w = (st', w', none)) : Inv st' w' := by
  unfold UndoStack.dispatch at hd
  rcases h1 : cmdDo c w with ⟨c1, w1, e1⟩
  rw [h1] at hd
  cases e1 with
  | some e => simp at hd
  | none =>
    simp only [Prod.mk.injEq] at hd
    obtain ⟨h2, h3, -⟩ := hd
    subst h2 h3
    obtain ⟨⟨w0, hch⟩, -⟩ := hinv
    refine ⟨⟨w0, ?_⟩, FChain.nil _⟩
    have hlink : Link c1 w w1 :=
      ⟨cmdDo_undo_cancel c w c1 w1 h1 ha, cmdDo_redo c w c1 w1 h1⟩
    exact Chain.snoc w0 st.history w c1 w1 hch hlink

/-- The `undo` preserves the consistency invariant. -/
theorem inv_undo {st st' : UndoStack} {w w' : World}
    (hinv : Inv st w) (hu : st.undo w = (st', w', none)) : Inv st' w' := by
  unfold UndoStack.undo at hu
  cases hp : popLast st.history with
  | none => rw [hp] at hu; simp at hu
  | some p =>
    rw [hp] at hu
    obtain ⟨rest, c⟩ := p
    have hhist := popLast_eq_some hp
    obtain ⟨⟨w0, hch⟩, hf⟩ := hinv
    rw [hhist] at hch
    obtain ⟨w1, hch1, hlink⟩ := chain_snoc_inv hch
    simp only at hu
    rw [hlink.1] at hu
    simp only [Prod.mk.injEq] at hu
    obtain ⟨h2, h3, -⟩ := hu
    subst h2 h3
    exact ⟨⟨w0, hch1⟩, FChain.snoc w1 c w st.future hlink hf⟩

/-- The `redo` preserves the consistency invariant. -/
theorem inv_redo {st st' : UndoStack} {w w' : World}
    (hinv : Inv st w) (hr : st.redo w = (st', w', none)) : Inv st' w' := by
  unfold UndoStack.redo at hr
  cases hp : popLast st.future with
  | none => rw [hp] at hr; simp at hr
  | some p =>
    rw [hp] at hr
    obtain ⟨rest, c⟩ := p
    have hfut := popLast_eq_some hp
    obtain ⟨⟨w0, hch⟩, hf⟩ := hinv
    rw [hfut] at hf
    obtain ⟨w'', hlink, hfrest⟩ := fchain_snoc_inv hf
    simp only at hr
    rw [hlink.2] at hr
    simp only [Prod.mk.injEq] at hr
    obtain ⟨h2, h3, -⟩ := hr
    subst h2 h3
    exact ⟨⟨w0, Chain.snoc w0 st.history w c w'' hch hlink⟩, hfrest⟩

/-- Every state reachable under the `addOk` discipline satisfies the
consistency invariant. -/
theorem reachA_inv : ∀ st w, ReachA st w → Inv st w := by
  intro st w h
  induction h with
  | init w => exact ⟨⟨w, Chain.nil w⟩, FChain.nil w⟩
  | disp st w c st' w' hr ha hd ih => exact inv_dispatch ih ha hd
  | undoS st w st' w' hr hu ih => exact inv_undo ih hu
  | redoS st w st' w' hr hrd ih => exact inv_redo ih hrd



/-- From any `addOk`-reachable state with non-empty history, `undo`
then `redo` succeed and restore the stack and the world exactly. -/
theorem undo_redo_roundtrip {st : UndoStack} {w : World} (hr : ReachA st w)
    (hne : st.history ≠ []) :
    ∃ st1 w1, st.undo w = (st1, w1, none) ∧ st1.redo w1 = (st, w, none) := by
  obtain ⟨⟨w0, hch⟩, -⟩ := reachA_inv st w hr
  rcases List.eq_nil_or_concat st.history with hnil | ⟨hs, c, hh⟩
  · exact absurd hnil hne
  · rw [List.concat_eq_append] at hh
    rw [hh] at hch
    obtain ⟨w1, hch1, hlink⟩ := chain_snoc_inv hch
    refine ⟨⟨hs, st.future ++ [c]⟩, w1, ?_, ?_⟩
    · unfold UndoStack.undo
      rw [hh, popLast_concat]
      simp only
      rw [hlink.1]
    · unfold UndoStack.redo
      simp only [popLast_concat]
      rw [hlink.2]
      simp only
      rw [← hh]

/-- The `CommandGroup.do` executes its children by forward iteration. -/
theorem cmdDoList_eq_runSeq : ∀ (cs : List Cmd) (w : World),
    cmdDoList cs w = runSeq cmdDo cs w := by
  intro cs
  induction cs with
  | nil => intro w; rfl
  | cons c cs ih =>
    intro w
    simp only [cmdDoList, runSeq]
    rcases h1 : cmdDo c w with ⟨c1, w1, e1⟩
    cases e1 <;> simp [ih]

/-- The `CommandGroup.redo` executes its children by forward iteration. -/
theorem cmdRedoList_eq_runSeq : ∀ (cs : List Cmd) (w : World),
    cmdRedoList cs w = runSeq cmdRedo cs w := by
  intro cs
  induction cs with
  | nil => intro w; rfl
  | cons c cs ih =>
    intro w
    simp only [cmdRedoList, runSeq]
    rcases h1 : cmdRedo c w with ⟨c1, w1, e1⟩
    cases e1 <;> simp [ih]

/-- Splitting a forward iteration at an append point. -/
theorem runSeq_append (f : Cmd → World → Cmd × World × Option Err) :
    ∀ (l1 l2 : List Cmd) (w : World),
    (runSeq f (l1 ++ l2) w).2 =
      (match (runSeq f l1 w).2.2 with
       | some e => ((runSeq f l1 w).2.1, some e)
       | none => (runSeq f l2 (runSeq f l1 w).2.1).2) := by
  intro l1
  induction l1 with
  | nil => intro l2 w; rfl
  | cons c cs ih =>
    intro l2 w
    simp only [List.cons_append, runSeq]
    rcases h1 : f c w with ⟨c1, w1, e1⟩
    cases e1 with
    | some e => simp
    | none => simp [ih]

/-- The world/error outcome of `CommandGroup.undo`'s reversed iteration
is exactly a forward iteration of the reversed child list. -/
theorem cmdUndoList_eq_runSeq_reverse : ∀ (cs : List Cmd) (w : World),
    (cmdUndoList cs w).2 = (runSeq cmdUndo cs.reverse w).2 := by
  intro cs
  induction cs with
  | nil => intro w; rfl
  | cons c cs ih =>
    intro w
    simp only [cmdUndoList, List.reverse_cons]
    rw [runSeq_append cmdUndo cs.reverse [c] w]
    rcases h1 : cmdUndoList cs w with ⟨cs1, w1, e1⟩
    have h2 := ih w
    rw [h1] at h2
    cases e1 with
    | some e => simp [← h2]
    | none =>
      simp only [← h2]
      simp only [runSeq]
      rcases h3 : cmdUndo c w1 with ⟨c2, w2, e2⟩
      cases e2 <;> simp



/-- The `dispatchList` produces the same world and error as running the
commands directly. -/
theorem dispatchList_snd : ∀ (cs : List Cmd) (st : UndoStack) (w : World),
    (dispatchList st cs w).2 = (cmdDoList cs w).2 := by
  intro cs
  induction cs with
  | nil => intro st w; rfl
  | cons c cs ih =>
    intro st w
    simp only [dispatchList, cmdDoList, UndoStack.dispatch]
    rcases h1 : cmdDo c w with ⟨c1, w1, e1⟩
    cases e1 <;> simp [ih]

/-- Dispatching all of `cs` from a fresh stack and then undoing
`cs.length` times restores the starting world exactly, with no error
anywhere, provided the `addOk` side condition holds. -/
theorem undo_all_restores (cs : List Cmd) (w : World) (st' : UndoStack) (w' : World)
    (ha : addOkList cs w = true)
    (hd : dispatchList UndoStack.fresh cs w = (st', w', none)) :
    ∃ st'', undoN st' cs.length w' = (st'', w, none) := by
  have hsnd := dispatchList_snd cs UndoStack.fresh w
  rw [hd] at hsnd
  rcases h1 : cmdDoList cs w with ⟨cs2, w2, e2⟩
  rw [h1] at hsnd
  simp only [Prod.mk.injEq] at hsnd
  obtain ⟨hw, he⟩ := hsnd
  subst hw
  cases e2 with
  | some e => simp at he
  | none =>
    have hok := dispatchList_ok cs UndoStack.fresh w cs2 w' h1
    rw [hd] at hok
    simp only [Prod.mk.injEq] at hok
    obtain ⟨hst, -⟩ := hok
    have h2 := undoN_restore cs w cs2 w' [] [] h1 ha
    simp only [List.nil_append] at h2
    have hst2 : st' = ⟨cs2, []⟩ := by
      rw [hst]
      simp [UndoStack.fresh]
    rw [hst2]
    exact ⟨⟨[], cs2.reverse⟩, h2⟩
  


/-- The `dispatch` preserves the ghost-id invariant. -/
theorem tinv_dispatch {st : TStack} {w : World} {c : Cmd} {st' : TStack} {w' : World}
    (hinv : TInv st) (hd : st.dispatch c w = (st', w', none)) : TInv st' := by
  unfold TStack.dispatch at hd
  rcases h1 : cmdDo c w with ⟨c1, w1, e1⟩
  rw [h1] at hd
  cases e1 with
  | some e => simp at hd
  | none =>
    simp only [Prod.mk.injEq] at hd
    obtain ⟨h2, -, -⟩ := hd
    subst h2
    obtain ⟨hnd, hbd⟩ := hinv
    constructor
    · simp only [TStack.push, List.append_nil, List.map_append, List.map_cons, List.map_nil]
      rw [List.nodup_append]
      refine ⟨?_, List.nodup_singleton _, ?_⟩
      · have hsub : List.Sublist (st.history.map Prod.fst)
            ((st.history ++ st.future).map Prod.fst) := by
          simp only [List.map_append]
          exact List.sublist_append_left _ _
        exact hnd.sublist hsub
      · intro a ha hb
        simp only [List.mem_singleton] at hb
        subst hb
        obtain ⟨p, hp, hpa⟩ := List.mem_map.mp ha
        have := hbd p (List.mem_append_left _ hp)
        omega
    · intro p hp
      simp only [TStack.push, List.append_nil] at hp
      rcases List.mem_append.mp hp with h | h
      · have := hbd p (List.mem_append_left _ h)
        simp only [TStack.push]
        omega
      · simp only [List.mem_singleton] at h
        subst h
        simp [TStack.push]

/-- The `undo` preserves the ghost-id invariant. -/
theorem tinv_undo {st st' : TStack} {w w' : World}
    (hinv : TInv st) (hu : st.undo w = (st', w', none)) : TInv st' := by
  unfold TStack.undo at hu
  cases hp : popLast st.history with
  | none => rw [hp] at hu; simp at hu
  | some p =>
    rw [hp] at hu
    obtain ⟨rest, q⟩ := p
    have hhist := popLast_eq_some hp
    simp only at hu
    rcases h1 : cmdUndo q.2 w with ⟨c1, w1, e1⟩
    rw [h1] at hu
    cases e1 with
    | some e => simp at hu
    | none =>
      simp only [Prod.mk.injEq] at hu
      obtain ⟨h2, -, -⟩ := hu
      subst h2
      obtain ⟨hnd, hbd⟩ := hinv
      rw [hhist] at hnd hbd
      have hperm : (((rest ++ [q]) ++ st.future).map Prod.fst).Perm
          ((rest ++ (st.future ++ [(q.1, c1)])).map Prod.fst) := by
        simp only [List.map_append, List.map_cons, List.map_nil]
        rw [List.append_assoc]
        exact List.Perm.append_left _ List.perm_append_comm
      constructor
      · exact hperm.nodup hnd
      · intro p hpmem
        have hmem2 : p.1 ∈ (rest ++ (st.future ++ [(q.1, c1)])).map Prod.fst :=
          List.mem_map_of_mem _ hpmem
        have hmem3 := hperm.mem_iff.mpr hmem2
        obtain ⟨p', hp', hpeq⟩ := List.mem_map.mp hmem3
        have := hbd p' hp'
        simp only
        omega

/-- The `redo` preserves the ghost-id invariant. -/
theorem tinv_redo {st st' : TStack} {w w' : World}
    (hinv : TInv st) (hr : st.redo w = (st', w', none)) : TInv st' := by
  unfold TStack.redo at hr
  cases hp : popLast st.future with
  | none => rw [hp] at hr; simp at hr
  | some p =>
    rw [hp] at hr
    obtain ⟨rest, q⟩ := p
    have hfut := popLast_eq_some hp
    simp only at hr
    rcases h1 : cmdRedo q.2 w with ⟨c1, w1, e1⟩
    rw [h1] at hr
    cases e1 with
    | some e => simp at hr
    | none =>
      simp only [Prod.mk.injEq] at hr
      obtain ⟨h2, -, -⟩ := hr
      subst h2
      obtain ⟨hnd, hbd⟩ := hinv
      rw [hfut] at hnd hbd
      have hperm : ((st.history ++ (rest ++ [q])).map Prod.fst).Perm
          (((st.history ++ [(q.1, c1)]) ++ rest).map Prod.fst) := by
        simp only [List.map_append, List.map_cons, List.map_nil]
        rw [List.append_assoc]
        exact List.Perm.append_left _ List.perm_append_comm.symm
      constructor
      · exact hperm.nodup hnd
      · intro p hpmem
        have hmem2 : p.1 ∈ ((st.history ++ [(q.1, c1)]) ++ rest).map Prod.fst :=
          List.mem_map_of_mem _ hpmem
        have hmem3 := hperm.mem_iff.mpr hmem2
        obtain ⟨p', hp', hpeq⟩ := List.mem_map.mp hmem3
        have := hbd p' hp'
        simp only
        omega



/-- Every reachable tagged-stack state satisfies the ghost-id invariant. -/
theorem treach_tinv : ∀ st (w : World), TReach st w → TInv st := by
  intro st w h
  induction h with
  | init w =>
    refine ⟨by simp [TStack.fresh], ?_⟩
    intro p hp
    simp [TStack.fresh] at hp
  | disp st w c st' w' hr hd ih => exact tinv_dispatch ih hd
  | undoS st w st' w' hr hu ih => exact tinv_undo ih hu
  | redoS st w st' w' hr hrd ih => exact tinv_redo ih hrd

/-- C1 (amended): for every sequence of commands dispatched on a fresh
`UndoStack` in which no `AddItem` command adds an item already present
in its target container at the moment it executes (`addOkList`),
calling `undo()` N times succeeds and restores every attribute and
container to its pre-dispatch value, undoing in reverse dispatch order;
in particular, after dispatching `AppendItem(c,"a")` then
`AppendItem(c,"b")` on empty `c`, two `undo()` calls leave
`c = ["a"]` then `c = []`, and two subsequent `redo()` calls leave
`c = ["a","b"]`. -/
theorem claim_C1 :
    (∀ (cs : List Cmd) (w : World) (st' : UndoStack) (w' : World),
        addOkList cs w = true →
        dispatchList UndoStack.fresh cs w = (st', w', none) →
        ∃ st'', undoN st' cs.length w' = (st'', w, none)) ∧
    (c1s1.2.2 = none ∧ c1s2.2.2 = none ∧
      c1s2.2.1.containers 0 = [Val.s ("a"), Val.s ("b")] ∧
      c1s3.2.2 = none ∧ c1s3.2.1.containers 0 = [Val.s ("a")] ∧
      c1s4.2.2 = none ∧ c1s4.2.1.containers 0 = [] ∧
      c1s5.2.2 = none ∧ c1s6.2.2 = none ∧
      c1s6.2.1.containers 0 = [Val.s ("a"), Val.s ("b")]) :=
  ⟨undo_all_restores, by decide⟩

/-- C1 witness: the amended claim instantiated at the two-append
scenario on a fresh stack over the empty world. -/
theorem claim_C1_witness :
    addOkList [Cmd.append 0 (Val.s ("a")), Cmd.append 0 (Val.s ("b"))] emptyWorld = true ∧
    ∃ st'', undoN
      (dispatchList UndoStack.fresh
        [Cmd.append 0 (Val.s ("a")), Cmd.append 0 (Val.s ("b"))] emptyWorld).1 2
      (dispatchList UndoStack.fresh
        [Cmd.append 0 (Val.s ("a")), Cmd.append 0 (Val.s ("b"))] emptyWorld).2.1 =
      (st'', emptyWorld, none) :=
  ⟨by decide, claim_C1.1 [Cmd.append 0 (Val.s ("a")), Cmd.append 0 (Val.s ("b"))]
    emptyWorld _ _ (by decide) (by rfl)⟩

/-- C1 counterexample: the claim as stated, without the `AddItem`
proviso, is false.  Dispatch the single command `AddItem(c,"a")` on a
fresh stack over a container already holding `["a","b"]`: the dispatch
and the one `undo()` both succeed, yet the container ends as
`["b","a"]`, not its pre-dispatch value `["a","b"]` (the Python
`removeItem` removed the pre-existing equal item, not the added one). -/
theorem claim_C1_cex :
    c1cexDispatch.2.2 = none ∧ c1cexUndo.2.2 = none ∧
    dupWorld.containers 0 = [Val.s ("a"), Val.s ("b")] ∧
    c1cexUndo.2.1.containers 0 = [Val.s ("b"), Val.s ("a")] ∧
    c1cexUndo.2.1.containers 0 ≠ dupWorld.containers 0 := by decide

/-- C2: `SetAttribute.do()` first snapshots the target's current value
into `originalItem` and then delegates to `redo()` — the result is the
snapshot-updated command paired with exactly `redo`'s outcome; in the
concrete scenario with `t.x = 1`, dispatching `SetAttribute(t,"x",5)`
gives `t.x = 5`, `undo()` gives `t.x = 1`, `redo()` gives `t.x = 5`. -/
theorem claim_C2 :
    (∀ (o : Nat) (n : String) (item orig a : Val) (w : World),
        w.attrs o n = some a →
        cmdDo (Cmd.setAttr o n item orig) w =
          (Cmd.setAttr o n item a, (cmdRedo (Cmd.setAttr o n item a) w).2)) ∧
    (c2s1.2.2 = none ∧ c2s1.2.1.attrs 0 "x" = some (Val.i 5) ∧
      c2s2.2.2 = none ∧ c2s2.2.1.attrs 0 "x" = some (Val.i 1) ∧
      c2s3.2.2 = none ∧ c2s3.2.1.attrs 0 "x" = some (Val.i 5)) := by
  constructor
  · intro o n item orig a w h
    simp [cmdDo, cmdRedo, World.getattr, h]
  · decide

/-- C2 witness: the snapshot-then-redo equation instantiated on a
target with `x = 1` and a `SetAttribute(t, "x", 5)` command. -/
theorem claim_C2_witness :
    exWorldX.attrs 0 "x" = some (Val.i 1) ∧
    cmdDo (Cmd.setAttr 0 "x" (Val.i 5) Val.vNone) exWorldX =
      (Cmd.setAttr 0 "x" (Val.i 5) (Val.i 1),
        (cmdRedo (Cmd.setAttr 0 "x" (Val.i 5) (Val.i 1)) exWorldX).2) :=
  ⟨by decide, claim_C2.1 0 "x" (Val.i 5) Val.vNone (Val.i 1) exWorldX (by decide)⟩

/-- C3: `CommandGroup.do` and `CommandGroup.redo` execute the children
by forward iteration over the construction-order list, and
`CommandGroup.undo` produces exactly the world/error outcome of a
forward iteration over the reversed list (strict reverse order); the
concrete two-`SetAttribute` group shows both orders observably: the
second child's snapshot sees the first child's write (forward), and
undoing restores the initial value (reverse). -/
theorem claim_C3 :
    (∀ (cs : List Cmd) (w : World),
        cmdDo (Cmd.group cs) w =
          (Cmd.group (runSeq cmdDo cs w).1, (runSeq cmdDo cs w).2)) ∧
    (∀ (cs : List Cmd) (w : World),
        cmdRedo (Cmd.group cs) w =
          (Cmd.group (runSeq cmdRedo cs w).1, (runSeq cmdRedo cs w).2)) ∧
    (∀ (cs : List Cmd) (w : World),
        (cmdUndo (Cmd.group cs) w).2 = (runSeq cmdUndo cs.reverse w).2) ∧
    (c3do.2.2 = none ∧
      c3do.1 = Cmd.group [Cmd.setAttr 0 "x" (Val.i 2) (Val.i 1),
        Cmd.setAttr 0 "x" (Val.i 3) (Val.i 2)] ∧
      c3do.2.1.attrs 0 "x" = some (Val.i 3) ∧
      (cmdUndo c3do.1 c3do.2.1).2.2 = none ∧
      (cmdUndo c3do.1 c3do.2.1).2.1.attrs 0 "x" = some (Val.i 1)) := by
  refine ⟨?_, ?_, ?_, rfl, rfl, rfl, rfl, rfl⟩
  · intro cs w
    simp [cmdDo, cmdDoList_eq_runSeq]
  · intro cs w
    simp [cmdRedo, cmdRedoList_eq_runSeq]
  · intro cs w
    simp [cmdUndo, cmdUndoList_eq_runSeq_reverse]

/-- C4: `push` clears the future sequence and appends the command to
the history, so any successful `dispatch` leaves an empty future and a
subsequent `redo()` fails with `EmptyFuture`. -/
theorem claim_C4 :
    (∀ (st : UndoStack) (command : Cmd),
        st.push command = ⟨st.history ++ [command], []⟩) ∧
    (∀ (st st' : UndoStack) (command : Cmd) (w w' : World),
        st.dispatch command w = (st', w', none) →
        ∀ w2 : World, st'.redo w2 = (st', w2, some Err.emptyFuture)) := by
  refine ⟨fun st command => rfl, ?_⟩
  intro st st' command w w' hd w2
  unfold UndoStack.dispatch at hd
  rcases h1 : cmdDo command w with ⟨c1, w1, e1⟩
  rw [h1] at hd
  cases e1 with
  | some e => simp at hd
  | none =>
    simp only [Prod.mk.injEq] at hd
    obtain ⟨h2, -, -⟩ := hd
    subst h2
    simp [UndoStack.redo, UndoStack.push, popLast]

/-- C4 witness: after dispatching one command on a fresh stack, `redo`
fails with `EmptyFuture`. -/
theorem claim_C4_witness :
    ((UndoStack.fresh.dispatch (Cmd.append 0 (Val.s ("a"))) emptyWorld).1).redo emptyWorld =
      ((UndoStack.fresh.dispatch (Cmd.append 0 (Val.s ("a"))) emptyWorld).1, emptyWorld,
        some Err.emptyFuture) :=
  claim_C4.2 UndoStack.fresh _ (Cmd.append 0 (Val.s ("a"))) emptyWorld _ (by rfl) emptyWorld

/-- C5: `undo()` on an empty history fails with `EmptyHistory` leaving
the stack unchanged; on a non-empty history it removes the most recent
command, runs its `undo()` (assumed to return normally), and appends
the command to the future. -/
theorem claim_C5 :
    (∀ (st : UndoStack) (w : World),
        st.history = [] → st.undo w = (st, w, some Err.emptyHistory)) ∧
    (∀ (st : UndoStack) (hs : List Cmd) (command : Cmd) (w w' : World),
        st.history = hs ++ [command] → (cmdUndo command w).2 = (w', none) →
        st.undo w = (⟨hs, st.future ++ [command]⟩, w', none)) := by
  constructor
  · intro st w h
    unfold UndoStack.undo
    rw [h]
    rfl
  · intro st hs command w w' hh hu
    unfold UndoStack.undo
    rw [hh, popLast_concat]
    rcases hc : cmdUndo command w with ⟨c1, w1, e1⟩
    rw [hc] at hu
    simp only [Prod.mk.injEq] at hu
    obtain ⟨h2, h3⟩ := hu
    subst h2 h3
    have hfst := cmdUndo_fst command w
    rw [hc] at hfst
    simp only at hfst
    subst hfst
    simp [hc]

/-- C5 witness: both branches — `undo` on a fresh stack fails with
`EmptyHistory`, and `undo` after one dispatched append pops it, undoes
it and moves it to the future. -/
theorem claim_C5_witness :
    UndoStack.fresh.undo emptyWorld = (UndoStack.fresh, emptyWorld, some Err.emptyHistory) ∧
    c1s1.1.undo c1s1.2.1 =
      (⟨[], c1s1.1.future ++ [Cmd.append 0 (Val.s ("a"))]⟩,
        (cmdUndo (Cmd.append 0 (Val.s ("a"))) c1s1.2.1).2.1, none) :=
  ⟨claim_C5.1 UndoStack.fresh emptyWorld rfl,
   claim_C5.2 c1s1.1 [] (Cmd.append 0 (Val.s ("a"))) c1s1.2.1 _ (by rfl) (by rfl)⟩

/-- C6: `redo()` on an empty future fails with `EmptyFuture` leaving
the stack unchanged; on a non-empty future it removes the most recently
undone command, runs its `redo()` (assumed to return normally), and
appends the command to the history. -/
theorem claim_C6 :
    (∀ (st : UndoStack) (w : World),
        st.future = [] → st.redo w = (st, w, some Err.emptyFuture)) ∧
    (∀ (st : UndoStack) (fs : List Cmd) (command : Cmd) (w w' : World),
        st.future = fs ++ [command] → (cmdRedo command w).2 = (w', none) →
        st.redo w = (⟨st.history ++ [command], fs⟩, w', none)) := by
  constructor
  · intro st w h
    unfold UndoStack.redo
    rw [h]
    rfl
  · intro st fs command w w' hh hr
    unfold UndoStack.redo
    rw [hh, popLast_concat]
    rcases hc : cmdRedo command w with ⟨c1, w1, e1⟩
    rw [hc] at hr
    simp only [Prod.mk.injEq] at hr
    obtain ⟨h2, h3⟩ := hr
    subst h2 h3
    have hfst := cmdRedo_fst command w
    rw [hc] at hfst
    simp only at hfst
    subst hfst
    simp [hc]

/-- C6 witness: both branches — `redo` on a fresh stack fails with
`EmptyFuture`, and `redo` on a stack whose future holds one append
re-applies it and moves it back to the history. -/
theorem claim_C6_witness :
    UndoStack.fresh.redo emptyWorld = (UndoStack.fresh, emptyWorld, some Err.emptyFuture) ∧
    (UndoStack.mk [] [Cmd.append 0 (Val.s ("a"))]).redo emptyWorld =
      (⟨[Cmd.append 0 (Val.s ("a"))], []⟩,
        (cmdRedo (Cmd.append 0 (Val.s ("a"))) emptyWorld).2.1, none) :=
  ⟨claim_C6.1 UndoStack.fresh emptyWorld rfl,
   claim_C6.2 ⟨[], [Cmd.append 0 (Val.s ("a"))]⟩ [] (Cmd.append 0 (Val.s ("a")))
     emptyWorld _ (by rfl) (by rfl)⟩



/-- C7 (amended): for every state reached from a fresh stack by
successful dispatch/undo/redo operations in which no dispatched
`AddItem` command adds an item already present in its target container
(`ReachA`), if the history is non-empty then `undo()` immediately
followed by `redo()` succeeds and leaves the world (every attribute and
container) and the stack's history and future exactly as they were. -/
theorem claim_C7 : ∀ (st : UndoStack) (w : World), ReachA st w → st.history ≠ [] →
    ∃ st1 w1, st.undo w = (st1, w1, none) ∧ st1.redo w1 = (st, w, none) :=
  fun _ _ hr hne => undo_redo_roundtrip hr hne

/-- C7 witness: the round trip instantiated after one dispatched
append on a fresh stack. -/
theorem claim_C7_witness :
    ∃ st1 w1, c7wDispatch.1.undo c7wDispatch.2.1 = (st1, w1, none) ∧
      st1.redo w1 = (c7wDispatch.1, c7wDispatch.2.1, none) :=
  claim_C7 c7wDispatch.1 c7wDispatch.2.1
    (ReachA.disp UndoStack.fresh emptyWorld (Cmd.append 0 (Val.s ("a"))) _ _
      (ReachA.init emptyWorld) (by rfl) (by rfl))
    (by simp [c7wDispatch, UndoStack.dispatch, cmdDo, UndoStack.push])

/-- C7 counterexample: the claim as stated, over all reachable states,
is false.  Dispatch `AddItem(c,"a")` over a container already holding
`["a","b"]` (a reachable state with non-empty history): the undo and
redo both succeed, but they leave the container as `["b","a","a"]`
instead of `["a","b","a"]`. -/
theorem claim_C7_cex :
    Reach c7cexDispatch.1 c7cexDispatch.2.1 ∧
    c7cexDispatch.1.history ≠ [] ∧
    c7cexUndo.2.2 = none ∧ c7cexRedo.2.2 = none ∧
    c7cexDispatch.2.1.containers 0 = [Val.s ("a"), Val.s ("b"), Val.s ("a")] ∧
    c7cexRedo.2.1.containers 0 = [Val.s ("b"), Val.s ("a"), Val.s ("a")] ∧
    c7cexRedo.2.1.containers 0 ≠ c7cexDispatch.2.1.containers 0 :=
  ⟨Reach.disp UndoStack.fresh dupWorld (Cmd.addItem 0 (Val.s ("a"))) _ _
      (Reach.init dupWorld) (by rfl),
   by simp [c7cexDispatch, UndoStack.dispatch, cmdDo, UndoStack.push],
   by decide, by decide, by decide, by decide, by decide⟩

/-- C8: over every run from a fresh stack, the history and future
sequences are disjoint — no command object (identified by its ghost
allocation id) is present in both at the same time. -/
theorem claim_C8 : ∀ (st : TStack) (w : World), TReach st w →
    ∀ p ∈ st.history, ∀ q ∈ st.future, p.1 ≠ q.1 := by
  intro st w hr p hp q hq heq
  obtain ⟨hnd, -⟩ := treach_tinv st w hr
  rw [List.map_append] at hnd
  have hdis := List.disjoint_of_nodup_append hnd
  exact hdis (List.mem_map_of_mem _ hp) (heq ▸ List.mem_map_of_mem _ hq)

/-- C8 witness: after two dispatches and one undo, the history holds
the id-0 command, the future holds the id-1 command, and the claim
yields that their ids differ. -/
theorem claim_C8_witness :
    ((0, Cmd.append 0 (Val.s ("a"))) ∈ c8s3.1.history ∧
      (1, Cmd.append 0 (Val.s ("b"))) ∈ c8s3.1.future) ∧
    (0 : Nat) ≠ 1 :=
  ⟨⟨List.mem_singleton.mpr rfl, List.mem_singleton.mpr rfl⟩,
    claim_C8 c8s3.1 c8s3.2.1
      (TReach.undoS c8s2.1 c8s2.2.1 _ _
        (TReach.disp c8s1.1 c8s1.2.1 (Cmd.append 0 (Val.s ("b"))) _ _
          (TReach.disp TStack.fresh emptyWorld (Cmd.append 0 (Val.s ("a"))) _ _
            (TReach.init emptyWorld) (by rfl)) (by rfl)) (by rfl))
      (0, Cmd.append 0 (Val.s ("a"))) (List.mem_singleton.mpr rfl)
      (1, Cmd.append 0 (Val.s ("b"))) (List.mem_singleton.mpr rfl)⟩

/-- C9: no command operation mutates the command object itself, except
that `SetAttribute`'s `do` caches the snapshot: `do` changes no
construction-time field of any variant (including group children,
recursively), `undo` and `redo` return every command unchanged, and a
successful `SetAttribute.do` sets `originalItem` to exactly the
target's prior attribute value. -/
theorem claim_C9 :
    (∀ (c : Cmd) (w : World), eraseOriginal (cmdDo c w).1 = eraseOriginal c) ∧
    (∀ (c : Cmd) (w : World), (cmdUndo c w).1 = c) ∧
    (∀ (c : Cmd) (w : World), (cmdRedo c w).1 = c) ∧
    (∀ (o : Nat) (n : String) (item orig a : Val) (w : World),
        w.attrs o n = some a →
        (cmdDo (Cmd.setAttr o n item orig) w).1 = Cmd.setAttr o n item a) := by
  refine ⟨cmdDo_eraseOriginal, cmdUndo_fst, cmdRedo_fst, ?_⟩
  intro o n item orig a w h
  simp [cmdDo, World.getattr, h]

/-- C9 witness: the snapshot equation instantiated on a target with
`x = 1`. -/
theorem claim_C9_witness :
    exWorldX.attrs 0 "x" = some (Val.i 1) ∧
    (cmdDo (Cmd.setAttr 0 "x" (Val.i 5) Val.vNone) exWorldX).1 =
      Cmd.setAttr 0 "x" (Val.i 5) (Val.i 1) :=
  ⟨by decide, claim_C9.2.2.2 0 "x" (Val.i 5) Val.vNone (Val.i 1) exWorldX (by decide)⟩

/-- C10: `dispatch` is atomic with respect to the stack on command
failure: if `command.do()` raises, the stack (history and future) is
returned exactly as it was; only the world keeps the partial
mutations. -/
theorem claim_C10 : ∀ (st : UndoStack) (command : Cmd) (w : World) (c' : Cmd)
    (w' : World) (e : Err),
    cmdDo command w = (c', w', some e) → st.dispatch command w = (st, w', some e) := by
  intro st command w c' w' e h
  unfold UndoStack.dispatch
  rw [h]

/-- C10 witness: dispatching a `SetAttribute` whose target lacks the
attribute raises `AttributeError` and leaves the fresh stack intact. -/
theorem claim_C10_witness :
    UndoStack.fresh.dispatch (mkSetAttrCommand 0 "y" (Val.i 5)) emptyWorld =
      (UndoStack.fresh, emptyWorld, some Err.attributeError) :=
  claim_C10 UndoStack.fresh (mkSetAttrCommand 0 "y" (Val.i 5)) emptyWorld
    (mkSetAttrCommand 0 "y" (Val.i 5)) emptyWorld Err.attributeError (by rfl)

end RigControls
